import Mathlib

/-!
Verification development for the dual-backend data-access layer and the
transactional bulk-reset orchestrator of the troia backend.

The first part embeds the unified query facade (src/src/database/db.js,
src/src/database/postgres.js together with the db-adapter module) over
abstract backend engines.  The second part embeds the reset orchestrator
(the reset script, src/unnamed/part_000) as a small-step interpreter over
an explicit database state with a transaction view, a statement trace and
an injected-failure budget.
-/

namespace Troia

/-! ## Values, rows and normalized results -/

/-- A JS value appearing in a row: an integer, a string, or SQL NULL. -/
inductive Value where
  | int (i : Int)
  | text (s : String)
  | vnull
deriving DecidableEq

/-- A row is a mapping from field names to values, in field order. -/
abbrev Row := List (String × Value)

/-- JS truthiness of a value (0, empty string and null are falsy). -/
def truthy : Value → Bool
  | .int i => i != 0
  | .text s => s != ""
  | .vnull => false

/-- Field lookup in a row (first binding wins). -/
def rowField : Row → String → Option Value
  | [], _ => none
  | (f, v) :: rest, n => if f = n then some v else rowField rest n

/-- The normalized result shape returned by the facade:
rows, rowCount, insertId (none models JS null). -/
structure NormResult where
  rows : List Row
  rowCount : Nat
  insertId : Option Value
deriving DecidableEq

/-- Embeds the JS expression reading rows[0] then field id then applying
the or-null coercion, used by the NetworkedServer branch of query. -/
def firstRowId (rows : List Row) : Option Value :=
  match rows with
  | [] => none
  | r :: _ =>
    match rowField r "id" with
    | none => none
    | some v => if truthy v then some v else none

/-! ## Character-level helpers for the query translator -/

/-- Case-insensitive prefix test on character lists, modelling
trimmed.toUpperCase().startsWith(kw) for an uppercase keyword kw. -/
def startsWithIC : List Char → List Char → Bool
  | _, [] => true
  | [], _ :: _ => false
  | c :: cs, k :: ks => (c.toLower == k.toLower) && startsWithIC cs ks

def SELECT_KW : List Char := ['S', 'E', 'L', 'E', 'C', 'T']

def INSERT_KW : List Char := ['I', 'N', 'S', 'E', 'R', 'T']

/-- First-keyword test: leading whitespace dropped, case-insensitive
comparison against the keyword.  Trailing trim cannot affect a prefix
test, so dropping leading whitespace is faithful to trim().startsWith. -/
def firstKwIs (kw : List Char) (sql : String) : Bool :=
  startsWithIC (sql.data.dropWhile Char.isWhitespace) kw

/-- Case-sensitive substring test, modelling String.prototype.includes. -/
def hasSubAux (needle : List Char) : List Char → Bool
  | [] => needle.isEmpty
  | c :: cs => needle.isPrefixOf (c :: cs) || hasSubAux needle cs

def hasSub (hay needle : String) : Bool := hasSubAux needle.data hay.data

/-- One pass of the regex-based placeholder rewriting of convertParams:
every question mark, in encounter order, becomes a dollar sign followed
by the current 1-based counter value; every other character is copied. -/
def convertChars : Nat → List Char → List Char
  | _, [] => []
  | i, c :: cs =>
    if c = '?' then ('$' :: (Nat.repr i).data) ++ convertChars (i + 1) cs
    else c :: convertChars i cs

/-- The rewritten query text for the NetworkedServer backend. -/
def convertSql (sql : String) : String := ⟨convertChars 1 sql.data⟩

/-- convertParams of db.js and of the db-adapter: rewrite placeholders
when the active backend is NetworkedServer, pass through otherwise; the
parameter array is returned unchanged in both cases. -/
def convertParams (pg : Bool) (sql : String) (params : List Value) :
    String × List Value :=
  if pg then (convertSql sql, params) else (sql, params)

/-- Does this suffix entirely match an optional semicolon followed by
trailing whitespace (the regex used before appending RETURNING id)? -/
def semiWsTail : List Char → Bool
  | ';' :: rest => rest.all Char.isWhitespace
  | cs => cs.all Char.isWhitespace

/-- Remove the first (leftmost) suffix matching the optional-semicolon
trailing-whitespace pattern, modelling the replace call of db.js. -/
def stripSemiAux : List Char → List Char
  | [] => []
  | c :: cs => if semiWsTail (c :: cs) then [] else c :: stripSemiAux cs

/-- Strip the statement terminator and append the identifier-returning
clause, as the NetworkedServer insert path of query does. -/
def appendReturningId (sql : String) : String :=
  ⟨stripSemiAux sql.data ++ (" RETURNING id").data⟩

/-- Does the translated query need the automatic RETURNING clause:
first keyword INSERT (case-insensitive after trimming) and no literal
RETURNING substring present. -/
def needsReturning (csql : String) : Bool :=
  firstKwIs INSERT_KW csql && !(hasSub csql "RETURNING")

/-- The final native query text sent to the NetworkedServer engine. -/
def pgFinalSql (sql : String) : String :=
  let c := convertSql sql
  if needsReturning c then appendReturningId c else c

/-! ## Abstract backend engines

The two physical engines are abstracted as functions from native query
text and parameters to their native results; both facade branches are
embedded on top of them exactly as the source computes. -/

/-- The NetworkedServer driver result: rows plus the driver rowCount. -/
structure PgResult where
  rows : List Row
  rowCount : Nat
deriving DecidableEq

/-- The NetworkedServer engine: pool.query as a function. -/
structure PgEngine where
  run : String → List Value → PgResult

/-- The EmbeddedFile engine: db.all rows, and the change counter and
last-inserted id observed after db.run. -/
structure SqEngine where
  all : String → List Value → List Row
  changes : String → List Value → Nat
  lastID : String → List Value → Nat

/-- query of db.js, NetworkedServer branch: translate placeholders,
append RETURNING id to inserts, run once, then normalize with
insertId taken from the first returned row. -/
def queryPg (E : PgEngine) (sql : String) (params : List Value) : NormResult :=
  let r := E.run (pgFinalSql sql) params
  ⟨r.rows, r.rowCount, firstRowId r.rows⟩

/-- query of db.js, EmbeddedFile branch: classify by the first keyword
of the trimmed, upper-cased text; only SELECT populates rows; INSERT
reports the change count and the truthy last-inserted id; everything
else reports the change count with a null insertId. -/
def querySqlite (E : SqEngine) (sql : String) (params : List Value) : NormResult :=
  if firstKwIs SELECT_KW sql then
    ⟨E.all sql params, (E.all sql params).length, none⟩
  else if firstKwIs INSERT_KW sql then
    ⟨[], E.changes sql params,
      if E.lastID sql params = 0 then none
      else some (.int (E.lastID sql params))⟩
  else
    ⟨[], E.changes sql params, none⟩

/-- queryOne of db.js on the NetworkedServer backend: run query once and
take the first row or null. -/
def dbQueryOnePg (E : PgEngine) (sql : String) (params : List Value) : Option Row :=
  (queryPg E sql params).rows.head?

/-- queryOne of db.js on the EmbeddedFile backend. -/
def dbQueryOneSqlite (E : SqEngine) (sql : String) (params : List Value) : Option Row :=
  (querySqlite E sql params).rows.head?

/-- queryOne of the db-adapter on the NetworkedServer backend: it
translates placeholders but does NOT apply the automatic RETURNING
rewrite, then takes the first row or null of a single execution. -/
def adapterQueryOnePg (E : PgEngine) (sql : String) (params : List Value) : Option Row :=
  (E.run (convertSql sql) params).rows.head?

/-- Native statements issued by one queryPg call (exactly one). -/
def queryPgIssued (sql : String) : List String := [pgFinalSql sql]

/-- Native statements issued by one querySqlite call (exactly one). -/
def querySqliteIssued (sql : String) : List String := [sql]

/-- Native statements issued by one adapterQueryOnePg call (exactly one). -/
def adapterQueryOnePgIssued (sql : String) : List String := [convertSql sql]

/-! ## A specification-level rendering of the placeholder rewriting,
written from the words of the spec: split the text at the placeholder
tokens and interleave the numbered parameters, leaving every other
character unchanged and renumbering in encounter order. -/

/-- Segments of the text between placeholder tokens (n tokens give
n + 1 segments). -/
def placeholderSegs : List Char → List (List Char)
  | [] => [[]]
  | c :: cs =>
    if c = '?' then [] :: placeholderSegs cs
    else
      match placeholderSegs cs with
      | [] => [[c]]
      | s :: ss => (c :: s) :: ss

/-- Interleave the segments with the numbered placeholders, 1-based. -/
def numberSegs : Nat → List (List Char) → List Char
  | _, [] => []
  | _, [s] => s
  | i, s :: ss => s ++ ('$' :: (Nat.repr i).data) ++ numberSegs (i + 1) ss

/-- The rewriting as the spec words it: the i-th placeholder token in
encounter order becomes the numbered form, all other text unchanged. -/
def specRewrite (sql : String) : String :=
  ⟨numberSegs 1 (placeholderSegs sql.data)⟩

/-! ## The reset orchestrator (the reset script, src/unnamed/part_000)

The database is an association list from table names to row lists; a
table absent from the list does not exist.  Rows carry the two columns
the reset logic inspects (role and email of the user-account table;
both are irrelevant for the operational tables). -/

/-- A stored row, reduced to the columns the reset logic reads. -/
structure URow where
  role : String
  email : String
deriving DecidableEq

def findRows : List (String × List URow) → String → Option (List URow)
  | [], _ => none
  | (n, rows) :: rest, t => if n = t then some rows else findRows rest t

def setRows : List (String × List URow) → String → List URow →
    List (String × List URow)
  | [], _, _ => []
  | (n, rows) :: rest, t, v =>
    if n = t then (n, v) :: rest else (n, rows) :: setRows rest t v

/-- The visible database: an ordered family of named tables. -/
structure DB where
  tables : List (String × List URow)
deriving DecidableEq

def DB.find (db : DB) (t : String) : Option (List URow) := findRows db.tables t

def DB.setTable (db : DB) (t : String) (v : List URow) : DB :=
  ⟨setRows db.tables t v⟩

/-- Transactional state: the committed database plus, while a
transaction is open, its uncommitted working view. -/
structure TxState where
  committed : DB
  txn : Option DB
deriving DecidableEq

/-- The view seen by a statement running on the transaction-bound
connection (the working view while a transaction is open). -/
def curView (st : TxState) : DB :=
  match st.txn with
  | some d => d
  | none => st.committed

/-- The view a statement observes: a pooled connection distinct from
the transaction-bound one only sees committed state. -/
def readView (pooled : Bool) (st : TxState) : DB :=
  if pooled then st.committed else curView st

/-- Apply a write on the transaction-bound connection: inside a
transaction it touches the working view only. -/
def mutTxn (st : TxState) (f : DB → DB) : TxState :=
  match st.txn with
  | some d => ⟨st.committed, some (f d)⟩
  | none => ⟨f st.committed, none⟩

/-- Which physical connection a statement is issued on: the dedicated
client checked out for the transaction, some other pool connection, or
the single shared EmbeddedFile connection. -/
inductive Conn where
  | dedicated
  | pooled
  | shared
deriving DecidableEq

/-- The statements the orchestrator issues. -/
inductive StKind where
  | beginTx
  | existsCheck (t : String)
  | countRows (t : String)
  | deleteAll (t : String)
  | deleteNonAdmin
  | commitTx
  | rollbackTx
deriving DecidableEq

abbrev Trace := List (Conn × StKind)

/-- Per-table cleanup record: the TableCleanupResult shape. -/
structure TCR where
  table : String
  deleted : Nat
  skipped : Bool
deriving DecidableEq

/-- Interpreter context: transactional state, remaining statements
before the injected failure (none injects no failure), and the trace
of issued statements. -/
structure Ctx where
  st : TxState
  fuel : Option Nat
  tr : Trace
deriving DecidableEq

/-- Issue one statement: it is recorded on the trace; it raises when
the failure budget is exhausted. -/
def issueStmt (ctx : Ctx) (c : Conn) (k : StKind) : Except Ctx Ctx :=
  match ctx.fuel with
  | none => .ok ⟨ctx.st, none, ctx.tr ++ [(c, k)]⟩
  | some 0 => .error ⟨ctx.st, some 0, ctx.tr ++ [(c, k)]⟩
  | some (n + 1) => .ok ⟨ctx.st, some n, ctx.tr ++ [(c, k)]⟩

/-- The connection carrying the transaction: the dedicated client on
NetworkedServer, the shared connection on EmbeddedFile. -/
def txnConn (pg : Bool) : Conn := if pg then .dedicated else .shared

/-- The connection used by tableExists: the facade (hence some pool
connection) on NetworkedServer, the shared connection on EmbeddedFile. -/
def checkConn (pg : Bool) : Conn := if pg then .pooled else .shared

/-- tableExists of the reset script: a schema-catalog query issued
through the pooled facade (NetworkedServer) or the shared connection
(EmbeddedFile). -/
def tableExists (pg : Bool) (t : String) (ctx : Ctx) : Except Ctx (Bool × Ctx) :=
  match issueStmt ctx (checkConn pg) (.existsCheck t) with
  | .error e => .error e
  | .ok c2 => .ok (((readView pg c2.st).find t).isSome, c2)

/-- The count query cleanTable issues on the dedicated client before
deleting (NetworkedServer path only; its result is unused). -/
def countStep (t : String) (ctx : Ctx) : Except Ctx Ctx :=
  issueStmt ctx .dedicated (.countRows t)

/-- The unconditional delete-all of cleanTable, on the
transaction-bound connection; returns the affected-row count. -/
def deleteAllStep (pg : Bool) (t : String) (ctx : Ctx) : Except Ctx (Nat × Ctx) :=
  match issueStmt ctx (txnConn pg) (.deleteAll t) with
  | .error e => .error e
  | .ok c2 =>
    let n := (((curView c2.st).find t).getD []).length
    .ok (n, ⟨mutTxn c2.st (fun d => d.setTable t []), c2.fuel, c2.tr⟩)

/-- cleanTable of the reset script: check existence, record a skipped
entry for an absent table, otherwise count (NetworkedServer) and
delete all rows, recording the affected count. -/
def cleanTable (pg : Bool) (t : String) (ctx : Ctx) : Except Ctx (TCR × Ctx) :=
  match tableExists pg t ctx with
  | .error e => .error e
  | .ok (false, c1) => .ok (⟨t, 0, true⟩, c1)
  | .ok (true, c1) =>
    if pg then
      match countStep t c1 with
      | .error e => .error e
      | .ok c2 =>
        match deleteAllStep pg t c2 with
        | .error e => .error e
        | .ok (n, c3) => .ok (⟨t, n, false⟩, c3)
    else
      match deleteAllStep pg t c1 with
      | .error e => .error e
      | .ok (n, c2) => .ok (⟨t, n, false⟩, c2)

/-- The row predicate of the user purge: role is not the administrator
role and email is not the reserved administrator address. -/
def delPred (r : URow) : Bool :=
  (!(r.role == "admin")) && (!(r.email == "admin@troia.com"))

/-- cleanUsers of the reset script: skip when the user-account table is
absent, otherwise delete the non-administrator rows on the
transaction-bound connection. -/
def cleanUsers (pg : Bool) (ctx : Ctx) : Except Ctx (TCR × Ctx) :=
  match tableExists pg "usuarios" ctx with
  | .error e => .error e
  | .ok (false, c1) => .ok (⟨"usuarios", 0, true⟩, c1)
  | .ok (true, c1) =>
    match issueStmt c1 (txnConn pg) .deleteNonAdmin with
    | .error e => .error e
    | .ok c2 =>
      let rows := ((curView c2.st).find "usuarios").getD []
      let kept := rows.filter (fun r => !(delPred r))
      let n := (rows.filter delPred).length
      .ok (⟨"usuarios", n, false⟩,
        ⟨mutTxn c2.st (fun d => d.setTable "usuarios" kept), c2.fuel, c2.tr⟩)

/-- Open the transaction: the working view becomes a copy of the
committed state. -/
def beginStep (pg : Bool) (ctx : Ctx) : Except Ctx Ctx :=
  match issueStmt ctx (txnConn pg) .beginTx with
  | .error e => .error e
  | .ok c2 => .ok ⟨⟨c2.st.committed, some c2.st.committed⟩, c2.fuel, c2.tr⟩

/-- Commit: publish the working view as the committed state. -/
def commitStep (pg : Bool) (ctx : Ctx) : Except Ctx Ctx :=
  match issueStmt ctx (txnConn pg) .commitTx with
  | .error e => .error e
  | .ok c2 => .ok ⟨⟨curView c2.st, none⟩, c2.fuel, c2.tr⟩

/-- Rollback on the transaction-bound connection: discard the working
view; the committed state is untouched. -/
def rollbackStep (pg : Bool) (ctx : Ctx) : Ctx :=
  ⟨⟨ctx.st.committed, none⟩, ctx.fuel, ctx.tr ++ [(txnConn pg, .rollbackTx)]⟩

/-- Clean an ordered list of tables, accumulating the per-table report
in processing order and stopping at the first raised error. -/
def cleanTables (pg : Bool) : List String → Ctx → Except Ctx (List TCR × Ctx)
  | [], ctx => .ok ([], ctx)
  | t :: ts, ctx =>
    match cleanTable pg t ctx with
    | .error e => .error e
    | .ok (r, c1) =>
      match cleanTables pg ts c1 with
      | .error e => .error e
      | .ok (rs, c2) => .ok (r :: rs, c2)

/-- The fixed deletion order of the reset script, dependents first. -/
def TABLES_TO_CLEAN : List String :=
  ["km_historico", "abastecimentos", "manutencoes", "ocr_usage",
   "veiculo_compartilhamentos", "proprietarios_historico",
   "proprietarios", "veiculos"]

/-- Outcome of one reset invocation. -/
inductive Outcome where
  | ok (report : List TCR) (totalDeleted : Nat)
  | err
deriving DecidableEq

/-- The observable result of a run: outcome, final transactional state
and the trace of issued statements. -/
structure RunResult where
  outcome : Outcome
  state : TxState
  trace : Trace
deriving DecidableEq

/-- The total the summary loop accumulates: the sum of the deleted
fields over the non-skipped entries. -/
def sumDeleted (rs : List TCR) : Nat :=
  ((rs.filter (fun r => !r.skipped)).map TCR.deleted).sum

/-- The failure path of the orchestrator: issue a rollback on the
transaction-bound connection, then surface the error outcome. -/
def errResult (pg : Bool) (e : Ctx) : RunResult :=
  let e2 := rollbackStep pg e
  ⟨.err, e2.st, e2.tr⟩

/-- The optional user purge stage of the orchestrator: when requested,
run cleanUsers and append its record to the report. -/
def usersStage (pg resetUsers : Bool) (rs : List TCR) (ctx : Ctx) :
    Except Ctx (List TCR × Ctx) :=
  if resetUsers then
    match cleanUsers pg ctx with
    | .error e => .error e
    | .ok (r, c3) => .ok (rs ++ [r], c3)
  else .ok (rs, ctx)

/-- resetOperationalData of the reset script: begin a transaction,
clean the fixed table list in order, optionally purge non-administrator
users, then commit; any raised error triggers a rollback instead. -/
def resetOperationalData (pg resetUsers : Bool) (db : DB) (failAt : Option Nat) :
    RunResult :=
  match beginStep pg ⟨⟨db, none⟩, failAt, []⟩ with
  | .error e => errResult pg e
  | .ok c1 =>
    match cleanTables pg TABLES_TO_CLEAN c1 with
    | .error e => errResult pg e
    | .ok (rs, c2) =>
      match usersStage pg resetUsers rs c2 with
      | .error e => errResult pg e
      | .ok (all, c3) =>
        match commitStep pg c3 with
        | .error e => errResult pg e
        | .ok c4 => ⟨.ok all (sumDeleted all), c4.st, c4.tr⟩

/-- The report of a successful run (empty for a failed one). -/
def reportOf (r : RunResult) : List TCR :=
  match r.outcome with
  | .ok rs _ => rs
  | .err => []

/-- Is the outcome a success. -/
def isOk : Outcome → Bool
  | .ok _ _ => true
  | .err => false

/-- The cleanup record a successful run produces for one operational
table, given the database at transaction start. -/
def expectedTCR (db0 : DB) (t : String) : TCR :=
  match db0.find t with
  | none => ⟨t, 0, true⟩
  | some rows => ⟨t, rows.length, false⟩

/-- The cleanup record of the user purge. -/
def usersTCR (db0 : DB) : TCR :=
  match db0.find "usuarios" with
  | none => ⟨"usuarios", 0, true⟩
  | some rows => ⟨"usuarios", (rows.filter delPred).length, false⟩

/-- The user-account table contents after the user purge. -/
def usersAfter (db0 : DB) : Option (List URow) :=
  match db0.find "usuarios" with
  | none => none
  | some rows => some (rows.filter (fun r => !(delPred r)))

/-- The full report of a successful run. -/
def fullReport (resetUsers : Bool) (db0 : DB) : List TCR :=
  TABLES_TO_CLEAN.map (expectedTCR db0) ++
    (if resetUsers then [usersTCR db0] else [])

/-- The ResetReport shape of the service contract. -/
structure ResetReport where
  results : List TCR
  totalDeleted : Nat
deriving DecidableEq

/-- Modelled from the spec: resetOperationalData of
src/services/resetDataService.js, which src/routes/admin.js and the CLI
entry point import but which is absent from src/.  Per the spec it runs
the same transactional algorithm as the reset script and, when every
step succeeded, commits and returns the accumulated ResetReport with
totalDeleted computed over the non-skipped entries. -/
def resetOperationalDataService (pg resetUsers : Bool) (db : DB) :
    Option ResetReport :=
  match resetOperationalData pg resetUsers db none with
  | ⟨.ok rs tot, _, _⟩ => some ⟨rs, tot⟩
  | ⟨.err, _, _⟩ => none

/-- Which connection each statement of a NetworkedServer run is issued
on: the existence checks go through the pooled facade, every other
statement runs on the dedicated client. -/
def pgConnOf : StKind → Conn
  | .existsCheck _ => .pooled
  | _ => .dedicated

/-! ## Concrete fixtures used to instantiate the theorems -/

def rowU (r e : String) : URow := ⟨r, e⟩

/-- A small concrete database with every operational table present. -/
def dbEx : DB := ⟨[
  ("km_historico", [rowU "" "", rowU "" ""]),
  ("abastecimentos", []),
  ("manutencoes", [rowU "" "", rowU "" "", rowU "" ""]),
  ("ocr_usage", []),
  ("veiculo_compartilhamentos", []),
  ("proprietarios_historico", []),
  ("proprietarios", []),
  ("veiculos", [rowU "" ""]),
  ("usuarios", [rowU "admin" "admin@troia.com", rowU "user" "u1@x.com",
                rowU "user" "admin@troia.com"])]⟩

/-- The same database with one operational table absent. -/
def dbEx3 : DB := ⟨[
  ("km_historico", [rowU "" "", rowU "" ""]),
  ("abastecimentos", []),
  ("manutencoes", [rowU "" "", rowU "" "", rowU "" ""]),
  ("veiculo_compartilhamentos", []),
  ("proprietarios_historico", []),
  ("proprietarios", []),
  ("veiculos", [rowU "" ""]),
  ("usuarios", [rowU "admin" "admin@troia.com", rowU "user" "u1@x.com"])]⟩

/-- A neutral read statement whose first keyword is WITH. -/
def Qw : String := "WITH t AS (SELECT 1 AS x) SELECT x FROM t"

/-- A NetworkedServer fixture on which the WITH statement yields one
row with field x. -/
def Epg5 : PgEngine :=
  ⟨fun s _ => if s = Qw then ⟨[[("x", .int 1)]], 1⟩ else ⟨[], 0⟩⟩

/-- The same fixture as an EmbeddedFile engine: the WITH statement
yields the same single row, and affects no rows when run through the
change-counting path. -/
def Esq5 : SqEngine :=
  ⟨fun s _ => if s = Qw then [[("x", .int 1)]] else [],
   fun _ _ => 0, fun _ _ => 0⟩

/-- A neutral SELECT with one positional placeholder. -/
def Qs : String := "SELECT id, placa FROM veiculos WHERE dono = ?"

/-- The rows the SELECT fixture returns. -/
def rowsQs : List Row :=
  [[("id", .int 3), ("placa", .text "ABC1234")],
   [("id", .int 9), ("placa", .text "XYZ9Z99")]]

def Epg5s : PgEngine :=
  ⟨fun s _ => if s = convertSql Qs then ⟨rowsQs, rowsQs.length⟩ else ⟨[], 0⟩⟩

def Esq5s : SqEngine :=
  ⟨fun s _ => if s = Qs then rowsQs else [], fun _ _ => 0, fun _ _ => 0⟩

/-- A neutral single-row INSERT without a RETURNING clause. -/
def Qi : String := "INSERT INTO veiculos (placa) VALUES (?)"

/-- A NetworkedServer fixture where the INSERT generates key 7: with
the appended RETURNING clause it returns the id row; without it, no
rows. -/
def Ei6 : PgEngine :=
  ⟨fun s _ =>
    if s = appendReturningId (convertSql Qi) then ⟨[[("id", .int 7)]], 1⟩
    else if s = convertSql Qi then ⟨[], 1⟩
    else ⟨[], 0⟩⟩

/-- A neutral multi-row INSERT without a RETURNING clause. -/
def Qm : String := "INSERT INTO veiculos (placa) VALUES (?), (?)"

/-- A NetworkedServer fixture where the multi-row INSERT generates
keys 5 and 6. -/
def Em7 : PgEngine :=
  ⟨fun s _ =>
    if s = appendReturningId (convertSql Qm) then
      ⟨[[("id", .int 5)], [("id", .int 6)]], 2⟩
    else ⟨[], 0⟩⟩

/-- An EmbeddedFile fixture where the multi-row INSERT inserts two rows
and the engine reports last-inserted id 6. -/
def Es7 : SqEngine := ⟨fun _ _ => [], fun _ _ => 2, fun _ _ => 6⟩

/-- An EmbeddedFile fixture where the single-row INSERT inserts one row
with generated id 7. -/
def Es7one : SqEngine := ⟨fun _ _ => [], fun _ _ => 1, fun _ _ => 7⟩

/-- A NetworkedServer fixture where the single-row INSERT with the
appended RETURNING clause returns generated id 7. -/
def Em7one : PgEngine :=
  ⟨fun s _ =>
    if s = appendReturningId (convertSql Qi) then ⟨[[("id", .int 7)]], 1⟩
    else ⟨[], 0⟩⟩

/-- A statement whose first keyword is PRAGMA. -/
def Qp : String := "PRAGMA table_info(veiculos)"

/-- An inert EmbeddedFile engine for classification tests. -/
def Esq0 : SqEngine := ⟨fun _ _ => [[("x", .int 1)]], fun _ _ => 0, fun _ _ => 0⟩

/-! ## Lemmas about the placeholder rewriting -/

lemma placeholderSegs_ne_nil : ∀ cs : List Char, placeholderSegs cs ≠ []
  | [] => by simp [placeholderSegs]
  | c :: cs => by
    by_cases h : c = '?'
    · subst h; simp [placeholderSegs]
    · cases hh : placeholderSegs cs with
      | nil => simp [placeholderSegs, h, hh]
      | cons s ss => simp [placeholderSegs, h, hh]

lemma numberSegs_cons (i : Nat) (c : Char) (s : List Char) (ss : List (List Char)) :
    numberSegs i ((c :: s) :: ss) = c :: numberSegs i (s :: ss) := by
  cases ss with
  | nil => rfl
  | cons s2 ss2 => simp [numberSegs]

lemma convertChars_eq_numberSegs : ∀ (cs : List Char) (i : Nat),
    convertChars i cs = numberSegs i (placeholderSegs cs)
  | [], i => rfl
  | c :: cs, i => by
    obtain ⟨s, ss, hss⟩ : ∃ s ss, placeholderSegs cs = s :: ss := by
      cases hh : placeholderSegs cs with
      | nil => exact absurd hh (placeholderSegs_ne_nil cs)
      | cons s ss => exact ⟨s, ss, rfl⟩
    by_cases h : c = '?'
    · subst h
      have h1 : convertChars i ('?' :: cs) =
          ('$' :: (Nat.repr i).data) ++ convertChars (i + 1) cs := by
        simp [convertChars]
      have h2 : placeholderSegs ('?' :: cs) = [] :: placeholderSegs cs := by
        simp [placeholderSegs]
      have hns : numberSegs i ([] :: s :: ss) =
          ('$' :: (Nat.repr i).data) ++ numberSegs (i + 1) (s :: ss) := by
        simp [numberSegs]
      rw [h1, h2, hss, hns, convertChars_eq_numberSegs cs (i + 1), hss]
    · have h1 : convertChars i (c :: cs) = c :: convertChars i cs := by
        simp [convertChars, h]
      have h2 : placeholderSegs (c :: cs) = (c :: s) :: ss := by
        simp [placeholderSegs, h, hss]
      rw [h1, h2, numberSegs_cons, ← hss, convertChars_eq_numberSegs cs i]

/-! ## Lemmas about keyword classification and the translator -/

lemma startsWithIC_nil (l : List Char) : startsWithIC l [] = true := by
  cases l <;> rfl

lemma dropWhile_convertChars (i : Nat) : ∀ cs : List Char,
    (convertChars i cs).dropWhile Char.isWhitespace =
      convertChars i (cs.dropWhile Char.isWhitespace)
  | [] => rfl
  | c :: cs => by
    have hd : Char.isWhitespace '$' = false := by decide
    by_cases hq : c = '?'
    · subst hq
      have hw : Char.isWhitespace '?' = false := by decide
      have h1 : convertChars i ('?' :: cs) =
          '$' :: ((Nat.repr i).data ++ convertChars (i + 1) cs) := by
        simp [convertChars]
      rw [h1, List.dropWhile_cons, List.dropWhile_cons]
      simp [hd, hw, convertChars]
    · by_cases hw : Char.isWhitespace c
      · have h1 : convertChars i (c :: cs) = c :: convertChars i cs := by
          simp [convertChars, hq]
        rw [h1, List.dropWhile_cons, List.dropWhile_cons]
        simp [hw, dropWhile_convertChars i cs]
      · have h1 : convertChars i (c :: cs) = c :: convertChars i cs := by
          simp [convertChars, hq]
        rw [h1, List.dropWhile_cons, List.dropWhile_cons]
        simp [hw, convertChars, hq]

lemma startsWithIC_convertChars : ∀ (kw cs : List Char) (i : Nat),
    (∀ k ∈ kw, k.toLower ≠ '?') → startsWithIC cs kw = true →
    startsWithIC (convertChars i cs) kw = true
  | [], cs, i, _, _ => startsWithIC_nil _
  | k :: ks, [], i, _, h => by simp [startsWithIC] at h
  | k :: ks, c :: cs, i, hkw, h => by
    rw [startsWithIC, Bool.and_eq_true] at h
    obtain ⟨h1, h2⟩ := h
    have hq : c ≠ '?' := by
      intro hc
      subst hc
      have hk : k.toLower ≠ '?' := hkw k (List.mem_cons_self k ks)
      have : ('?').toLower = k.toLower := by
        exact eq_of_beq h1
      have hqq : ('?').toLower = '?' := by decide
      exact hk (by rw [← this, hqq])
    rw [convertChars, if_neg hq, startsWithIC, Bool.and_eq_true]
    exact ⟨h1, startsWithIC_convertChars ks cs i
      (fun k2 hk2 => hkw k2 (List.mem_cons_of_mem k hk2)) h2⟩

lemma firstKwIs_convertSql (kw : List Char) (sql : String)
    (hkw : ∀ k ∈ kw, k.toLower ≠ '?') (h : firstKwIs kw sql = true) :
    firstKwIs kw (convertSql sql) = true := by
  unfold firstKwIs at h ⊢
  have hdata : (convertSql sql).data = convertChars 1 sql.data := rfl
  rw [hdata, dropWhile_convertChars]
  exact startsWithIC_convertChars kw _ 1 hkw h

lemma select_not_insert (cs : List Char)
    (h : startsWithIC cs SELECT_KW = true) :
    startsWithIC cs INSERT_KW = false := by
  cases cs with
  | nil => simp [startsWithIC, SELECT_KW] at h
  | cons c cs2 =>
    rw [show SELECT_KW = 'S' :: ['E', 'L', 'E', 'C', 'T'] from rfl] at h
    rw [startsWithIC, Bool.and_eq_true] at h
    have hc : c.toLower = 's' := by
      have := eq_of_beq h.1
      simpa using this
    rw [show INSERT_KW = 'I' :: ['N', 'S', 'E', 'R', 'T'] from rfl]
    rw [startsWithIC]
    have hci : (c.toLower == ('I').toLower) = false := by
      rw [hc]; decide
    simp only [hci, Bool.false_and]

lemma needsReturning_of_select (sql : String)
    (h : firstKwIs SELECT_KW sql = true) :
    needsReturning (convertSql sql) = false := by
  have h2 := firstKwIs_convertSql SELECT_KW sql (by decide) h
  have h3 : firstKwIs INSERT_KW (convertSql sql) = false := by
    unfold firstKwIs at h2 ⊢
    exact select_not_insert _ h2
  simp [needsReturning, h3]

lemma pgFinalSql_of_select (sql : String)
    (h : firstKwIs SELECT_KW sql = true) :
    pgFinalSql sql = convertSql sql := by
  unfold pgFinalSql
  simp [needsReturning_of_select sql h]

/-! ## Claims about the facade -/

/-- Claim C8: on the NetworkedServer backend the translator rewrites the
i-th positional placeholder token, in encounter order, to the 1-based
numbered form, leaves every other character of the query text unchanged
and returns the parameter array unchanged in the same order; on the
EmbeddedFile backend query and parameters pass through unchanged.  The
right-hand side specRewrite is the rewriting as the spec words it. -/
theorem C8_convertParams_rewrites_in_order (sql : String) (params : List Value) :
    convertParams true sql params = (specRewrite sql, params) ∧
    convertParams false sql params = (sql, params) := by
  constructor
  · have h : convertSql sql = specRewrite sql := by
      unfold convertSql specRewrite
      rw [convertChars_eq_numberSegs]
    simp [convertParams, h]
  · rfl

/-- Claim C10: the EmbeddedFile branch of query classifies a statement
by its first keyword after trimming, case-insensitively: only SELECT
populates rows; INSERT returns empty rows with the change count and the
truthy last-inserted id; every other statement (WITH and PRAGMA
included) returns empty rows, a null insertId, and the change count. -/
theorem C10_sqlite_keyword_classification (E : SqEngine) (sql : String)
    (params : List Value) :
    (firstKwIs SELECT_KW sql = true →
      querySqlite E sql params =
        ⟨E.all sql params, (E.all sql params).length, none⟩) ∧
    (firstKwIs SELECT_KW sql = false → (querySqlite E sql params).rows = []) ∧
    (firstKwIs SELECT_KW sql = false → firstKwIs INSERT_KW sql = true →
      querySqlite E sql params = ⟨[], E.changes sql params,
        if E.lastID sql params = 0 then none
        else some (.int (E.lastID sql params))⟩) ∧
    (firstKwIs SELECT_KW sql = false → firstKwIs INSERT_KW sql = false →
      querySqlite E sql params = ⟨[], E.changes sql params, none⟩) := by
  refine ⟨fun h => ?_, fun h => ?_, fun h h2 => ?_, fun h h2 => ?_⟩
  · simp [querySqlite, h]
  · by_cases h2 : firstKwIs INSERT_KW sql = true
    · simp [querySqlite, h, h2]
    · simp [querySqlite, h, h2]
  · simp [querySqlite, h, h2]
  · simp [querySqlite, h, h2]

/-- Witness for C10: a PRAGMA statement on a concrete engine falls into
the other-statement class: empty rows, null insertId, change count. -/
theorem C10_witness : querySqlite Esq0 Qp [] = ⟨[], 0, none⟩ := by
  have h := (C10_sqlite_keyword_classification Esq0 Qp []).2.2.2
    (by decide) (by decide)
  simpa [Esq0] using h

/-- Counterexample to C5 as stated: over the same data fixture (the two
engines return the same single row for the WITH statement), the
normalized results differ across backends: NetworkedServer returns the
row while EmbeddedFile returns no rows, and queryOne differs likewise. -/
theorem C5_counterexample :
    Epg5.run (convertSql Qw) [] = ⟨Esq5.all Qw [], (Esq5.all Qw []).length⟩ ∧
    (queryPg Epg5 Qw []).rows ≠ (querySqlite Esq5 Qw []).rows ∧
    dbQueryOnePg Epg5 Qw [] ≠ dbQueryOneSqlite Esq5 Qw [] := by
  refine ⟨by decide, by decide, by decide⟩

/-- Claim C5 (amended): backend transparency holds for neutral queries
whose first keyword is SELECT: over the same data fixture both backends
return identical rows (hence identical field names and types), the same
rowCount, and queryOne agrees, also through the adapter path; for other
first keywords, and for the insertId field, the backends can differ. -/
theorem C5_select_backend_transparency (Epg : PgEngine) (Esq : SqEngine)
    (sql : String) (params : List Value) (R : List Row)
    (hsel : firstKwIs SELECT_KW sql = true)
    (hpg : Epg.run (convertSql sql) params = ⟨R, R.length⟩)
    (hsq : Esq.all sql params = R) :
    (queryPg Epg sql params).rows = (querySqlite Esq sql params).rows ∧
    (queryPg Epg sql params).rowCount = (querySqlite Esq sql params).rowCount ∧
    dbQueryOnePg Epg sql params = dbQueryOneSqlite Esq sql params ∧
    adapterQueryOnePg Epg sql params = dbQueryOneSqlite Esq sql params := by
  unfold queryPg querySqlite dbQueryOnePg dbQueryOneSqlite adapterQueryOnePg
  rw [pgFinalSql_of_select sql hsel, hpg, hsq]
  simp [queryPg, querySqlite, hsel, hpg, hsq,
    pgFinalSql_of_select sql hsel]

/-- Witness for the amended C5 at a concrete SELECT and fixture. -/
theorem C5_witness :
    (queryPg Epg5s Qs [Value.int 1]).rows =
      (querySqlite Esq5s Qs [Value.int 1]).rows ∧
    (queryPg Epg5s Qs [Value.int 1]).rowCount =
      (querySqlite Esq5s Qs [Value.int 1]).rowCount ∧
    dbQueryOnePg Epg5s Qs [Value.int 1] = dbQueryOneSqlite Esq5s Qs [Value.int 1] ∧
    adapterQueryOnePg Epg5s Qs [Value.int 1] =
      dbQueryOneSqlite Esq5s Qs [Value.int 1] :=
  C5_select_backend_transparency Epg5s Esq5s Qs [Value.int 1] rowsQs
    (by decide) (by decide) (by decide)

/-- Counterexample to C6 as stated: for a single-row INSERT without a
RETURNING clause on the NetworkedServer backend, queryMany returns the
generated-id row (so its first row is that row), while the db-adapter
queryOne, which skips the automatic RETURNING rewrite, returns null. -/
theorem C6_counterexample :
    (queryPg Ei6 Qi [Value.text "A"]).rows.head? =
      some [("id", Value.int 7)] ∧
    adapterQueryOnePg Ei6 Qi [Value.text "A"] = none := by
  refine ⟨by decide, by decide⟩

/-- Claim C6 (amended): queryOne returns the first row of queryMany or
null, executing the underlying query once, on the EmbeddedFile backend
and for the db.js queryOne on both backends; the db-adapter queryOne on
NetworkedServer also executes once but runs the translated query
without the automatic RETURNING rewrite, so it agrees with queryMany
exactly when that rewrite does not apply. -/
theorem C6_queryOne_first_row (Epg : PgEngine) (Esq : SqEngine)
    (sql : String) (params : List Value) :
    dbQueryOneSqlite Esq sql params = (querySqlite Esq sql params).rows.head? ∧
    dbQueryOnePg Epg sql params = (queryPg Epg sql params).rows.head? ∧
    (querySqliteIssued sql).length = 1 ∧
    (queryPgIssued sql).length = 1 ∧
    (adapterQueryOnePgIssued sql).length = 1 ∧
    (needsReturning (convertSql sql) = false →
      adapterQueryOnePg Epg sql params = (queryPg Epg sql params).rows.head?) := by
  refine ⟨rfl, rfl, rfl, rfl, rfl, fun h => ?_⟩
  unfold adapterQueryOnePg queryPg pgFinalSql
  simp [h]

/-- Witness for the amended C6 at a concrete SELECT query. -/
theorem C6_witness :
    adapterQueryOnePg Epg5s Qs [Value.int 1] =
      (queryPg Epg5s Qs [Value.int 1]).rows.head? :=
  (C6_queryOne_first_row Epg5s Esq5s Qs [Value.int 1]).2.2.2.2.2 (by decide)

/-- Counterexample to C7 as stated: a two-row INSERT without a
RETURNING clause yields a NON-null insertId on both backends (the first
returned id on NetworkedServer, the engine last-insert id on
EmbeddedFile), where the claim requires null for more than one row. -/
theorem C7_counterexample :
    (queryPg Em7 Qm [Value.text "a", Value.text "b"]).rowCount = 2 ∧
    (queryPg Em7 Qm [Value.text "a", Value.text "b"]).insertId =
      some (Value.int 5) ∧
    (querySqlite Es7 Qm [Value.text "a", Value.text "b"]).rowCount = 2 ∧
    (querySqlite Es7 Qm [Value.text "a", Value.text "b"]).insertId =
      some (Value.int 6) := by
  refine ⟨by decide, by decide, by decide, by decide⟩

/-- Claim C7 (amended): for an INSERT without an identifier-returning
clause, on NetworkedServer insertId is null when no row comes back and
equals the id of the FIRST returned row when at least one row comes
back (in particular the generated key for a single-row insert); on
EmbeddedFile insertId is the engine last-inserted id, null exactly when
that id is 0.  For several affected rows insertId is therefore not
null, against the claim as stated. -/
theorem C7_insertId_characterization (Epg : PgEngine) (Esq : SqEngine)
    (sql : String) (params : List Value) :
    ((Epg.run (pgFinalSql sql) params).rows = [] →
      (queryPg Epg sql params).insertId = none) ∧
    (∀ r rest k, (Epg.run (pgFinalSql sql) params).rows = r :: rest →
      rowField r "id" = some (.int k) → k ≠ 0 →
      (queryPg Epg sql params).insertId = some (.int k)) ∧
    (firstKwIs SELECT_KW sql = false → firstKwIs INSERT_KW sql = true →
      (querySqlite Esq sql params).insertId =
        (if Esq.lastID sql params = 0 then none
         else some (.int (Esq.lastID sql params)))) := by
  refine ⟨fun h => ?_, fun r rest k h hf hk => ?_, fun h1 h2 => ?_⟩
  · simp [queryPg, h, firstRowId]
  · have ht : truthy (.int k) = true := by
      simp [truthy, hk]
    simp [queryPg, h, firstRowId, hf, ht]
  · simp [querySqlite, h1, h2]

/-- Witness for the amended C7: a concrete single-row INSERT whose
generated key 7 is surfaced as insertId on the NetworkedServer path. -/
theorem C7_witness :
    (queryPg Em7one Qi [Value.text "A"]).insertId = some (Value.int 7) :=
  (C7_insertId_characterization Em7one Es7one Qi [Value.text "A"]).2.1
    [("id", Value.int 7)] [] 7 (by decide) (by decide) (by decide)

/-! ## Lemmas about the database model -/

lemma findRows_setRows_ne (t u : String) (v : List URow) (hne : u ≠ t) :
    ∀ l : List (String × List URow), findRows (setRows l t v) u = findRows l u
  | [] => rfl
  | (n, rows) :: rest => by
    by_cases h : n = t
    · subst h
      have hnu : ¬(n = u) := fun hh => hne hh.symm
      simp [setRows, findRows, hnu]
    · by_cases h2 : n = u
      · subst h2
        simp [setRows, findRows, h]
      · simp [setRows, findRows, h, h2, findRows_setRows_ne t u v hne rest]

lemma findRows_setRows_isSome (t u : String) (v : List URow) :
    ∀ l : List (String × List URow),
      (findRows (setRows l t v) u).isSome = (findRows l u).isSome
  | [] => rfl
  | (n, rows) :: rest => by
    by_cases h : n = t
    · subst h
      by_cases h2 : n = u
      · subst h2; simp [setRows, findRows]
      · simp [setRows, findRows, h2]
    · by_cases h2 : n = u
      · subst h2; simp [setRows, findRows, h]
      · simp [setRows, findRows, h, h2, findRows_setRows_isSome t u v rest]

lemma findRows_setRows_self (t : String) (v : List URow) :
    ∀ l : List (String × List URow), (findRows l t).isSome = true →
      findRows (setRows l t v) t = some v
  | [], h => by simp [findRows] at h
  | (n, rows) :: rest, h => by
    by_cases hn : n = t
    · subst hn; simp [setRows, findRows]
    · simp [findRows, hn] at h
      simp [setRows, findRows, hn, findRows_setRows_self t v rest h]

lemma find_setTable_ne (db : DB) (t u : String) (v : List URow) (hne : u ≠ t) :
    (db.setTable t v).find u = db.find u :=
  findRows_setRows_ne t u v hne db.tables

lemma find_setTable_isSome (db : DB) (t u : String) (v : List URow) :
    ((db.setTable t v).find u).isSome = (db.find u).isSome :=
  findRows_setRows_isSome t u v db.tables

lemma find_setTable_self (db : DB) (t : String) (v : List URow)
    (h : (db.find t).isSome = true) : (db.setTable t v).find t = some v :=
  findRows_setRows_self t v db.tables h

lemma mutTxn_some (st : TxState) (d : DB) (f : DB → DB) (h : st.txn = some d) :
    mutTxn st f = ⟨st.committed, some (f d)⟩ := by
  unfold mutTxn
  rw [h]

lemma curView_some (st : TxState) (d : DB) (h : st.txn = some d) :
    curView st = d := by
  unfold curView
  rw [h]

lemma readView_isSome (pg : Bool) (st : TxState) (d : DB) (u : String) (x : Bool)
    (h : st.txn = some d)
    (hc : (st.committed.find u).isSome = x)
    (hd : (d.find u).isSome = x) :
    ((readView pg st).find u).isSome = x := by
  cases pg
  · rw [readView]
    simp [curView_some st d h, hd]
  · rw [readView]
    simpa using hc

/-! ## Lemmas about single statements of the orchestrator -/

lemma issueStmt_none {ctx : Ctx} (c : Conn) (k : StKind) (hf : ctx.fuel = none) :
    issueStmt ctx c k = .ok ⟨ctx.st, none, ctx.tr ++ [(c, k)]⟩ := by
  unfold issueStmt
  rw [hf]

lemma issueStmt_ok_spec {ctx c2 : Ctx} {c : Conn} {k : StKind}
    (h : issueStmt ctx c k = .ok c2) :
    c2.st = ctx.st ∧ c2.tr = ctx.tr ++ [(c, k)] := by
  unfold issueStmt at h
  cases hf : ctx.fuel with
  | none =>
    rw [hf] at h
    injection h with h2
    rw [← h2]
    exact ⟨rfl, rfl⟩
  | some n =>
    cases n with
    | zero => rw [hf] at h; exact absurd h (by simp)
    | succ m =>
      rw [hf] at h
      injection h with h2
      rw [← h2]
      exact ⟨rfl, rfl⟩

lemma issueStmt_error_spec {ctx e : Ctx} {c : Conn} {k : StKind}
    (h : issueStmt ctx c k = .error e) :
    e.st = ctx.st ∧ e.tr = ctx.tr ++ [(c, k)] := by
  unfold issueStmt at h
  cases hf : ctx.fuel with
  | none => rw [hf] at h; exact absurd h (by simp)
  | some n =>
    cases n with
    | zero =>
      rw [hf] at h
      injection h with h2
      rw [← h2]
      exact ⟨rfl, rfl⟩
    | succ m => rw [hf] at h; exact absurd h (by simp)

lemma tableExists_error_spec {pg : Bool} {t : String} {ctx e : Ctx}
    (h : tableExists pg t ctx = .error e) :
    e.st = ctx.st ∧ e.tr = ctx.tr ++ [(checkConn pg, .existsCheck t)] := by
  unfold tableExists at h
  cases hi : issueStmt ctx (checkConn pg) (.existsCheck t) with
  | error e2 =>
    rw [hi] at h
    injection h with h2
    exact h2 ▸ issueStmt_error_spec hi
  | ok c2 => rw [hi] at h; exact absurd h (by simp)

lemma tableExists_ok_spec {pg : Bool} {t : String} {ctx c2 : Ctx} {b : Bool}
    (h : tableExists pg t ctx = .ok (b, c2)) :
    c2.st = ctx.st ∧ c2.tr = ctx.tr ++ [(checkConn pg, .existsCheck t)] ∧
      b = ((readView pg ctx.st).find t).isSome := by
  unfold tableExists at h
  cases hi : issueStmt ctx (checkConn pg) (.existsCheck t) with
  | error e2 => rw [hi] at h; exact absurd h (by simp)
  | ok c3 =>
    rw [hi] at h
    obtain ⟨hst, htr⟩ := issueStmt_ok_spec hi
    injection h with h2
    injection h2 with hb hc
    subst hc
    exact ⟨hst, htr, by rw [← hb, hst]⟩

lemma countStep_error_spec {t : String} {ctx e : Ctx}
    (h : countStep t ctx = .error e) :
    e.st = ctx.st ∧ e.tr = ctx.tr ++ [(Conn.dedicated, .countRows t)] :=
  issueStmt_error_spec h

lemma countStep_ok_spec {t : String} {ctx c2 : Ctx}
    (h : countStep t ctx = .ok c2) :
    c2.st = ctx.st ∧ c2.tr = ctx.tr ++ [(Conn.dedicated, .countRows t)] :=
  issueStmt_ok_spec h

lemma deleteAllStep_error_spec {pg : Bool} {t : String} {ctx e : Ctx}
    (h : deleteAllStep pg t ctx = .error e) :
    e.st = ctx.st ∧ e.tr = ctx.tr ++ [(txnConn pg, .deleteAll t)] := by
  unfold deleteAllStep at h
  cases hi : issueStmt ctx (txnConn pg) (.deleteAll t) with
  | error e2 =>
    rw [hi] at h
    injection h with h2
    exact h2 ▸ issueStmt_error_spec hi
  | ok c3 => rw [hi] at h; exact absurd h (by simp)

lemma deleteAllStep_ok_spec {pg : Bool} {t : String} {ctx c2 : Ctx} {n : Nat}
    (h : deleteAllStep pg t ctx = .ok (n, c2)) :
    c2.st = mutTxn ctx.st (fun d => d.setTable t []) ∧
      c2.tr = ctx.tr ++ [(txnConn pg, .deleteAll t)] ∧
      n = (((curView ctx.st).find t).getD []).length := by
  unfold deleteAllStep at h
  cases hi : issueStmt ctx (txnConn pg) (.deleteAll t) with
  | error e2 => rw [hi] at h; exact absurd h (by simp)
  | ok c3 =>
    rw [hi] at h
    obtain ⟨hst, htr⟩ := issueStmt_ok_spec hi
    injection h with h2
    injection h2 with hn hc
    refine ⟨?_, ?_, ?_⟩
    · rw [← hc]
      dsimp only
      rw [hst]
    · rw [← hc]
      exact htr
    · rw [← hn, hst]

lemma tableExists_none {pg : Bool} {t : String} {ctx : Ctx} (hf : ctx.fuel = none) :
    tableExists pg t ctx = .ok (((readView pg ctx.st).find t).isSome,
      ⟨ctx.st, none, ctx.tr ++ [(checkConn pg, .existsCheck t)]⟩) := by
  unfold tableExists
  rw [issueStmt_none _ _ hf]

lemma countStep_none {t : String} {ctx : Ctx} (hf : ctx.fuel = none) :
    countStep t ctx = .ok ⟨ctx.st, none, ctx.tr ++ [(Conn.dedicated, .countRows t)]⟩ :=
  issueStmt_none _ _ hf

lemma deleteAllStep_none {pg : Bool} {t : String} {ctx : Ctx} (hf : ctx.fuel = none) :
    deleteAllStep pg t ctx = .ok ((((curView ctx.st).find t).getD []).length,
      ⟨mutTxn ctx.st (fun d => d.setTable t []), none,
        ctx.tr ++ [(txnConn pg, .deleteAll t)]⟩) := by
  unfold deleteAllStep
  rw [issueStmt_none _ _ hf]

lemma mutTxn_pres (st : TxState) (f : DB → DB) (h : st.txn.isSome = true) :
    (mutTxn st f).committed = st.committed ∧ (mutTxn st f).txn.isSome = true := by
  cases hx : st.txn with
  | none => rw [hx] at h; simp at h
  | some d => rw [mutTxn_some st d f hx]; exact ⟨rfl, rfl⟩

lemma beginStep_error_spec {pg : Bool} {ctx e : Ctx}
    (h : beginStep pg ctx = .error e) :
    e.st = ctx.st ∧ e.tr = ctx.tr ++ [(txnConn pg, .beginTx)] := by
  unfold beginStep at h
  cases hi : issueStmt ctx (txnConn pg) .beginTx with
  | error e2 =>
    rw [hi] at h
    injection h with h2
    exact h2 ▸ issueStmt_error_spec hi
  | ok c2 => rw [hi] at h; exact absurd h (by simp)

lemma beginStep_ok_spec {pg : Bool} {ctx c2 : Ctx}
    (h : beginStep pg ctx = .ok c2) :
    c2.st = ⟨ctx.st.committed, some ctx.st.committed⟩ ∧
      c2.tr = ctx.tr ++ [(txnConn pg, .beginTx)] := by
  unfold beginStep at h
  cases hi : issueStmt ctx (txnConn pg) .beginTx with
  | error e2 => rw [hi] at h; exact absurd h (by simp)
  | ok c3 =>
    rw [hi] at h
    obtain ⟨hst, htr⟩ := issueStmt_ok_spec hi
    injection h with h2
    rw [← h2]
    exact ⟨by rw [hst], htr⟩

lemma beginStep_none {pg : Bool} {ctx : Ctx} (hf : ctx.fuel = none) :
    beginStep pg ctx = .ok ⟨⟨ctx.st.committed, some ctx.st.committed⟩, none,
      ctx.tr ++ [(txnConn pg, .beginTx)]⟩ := by
  unfold beginStep
  rw [issueStmt_none _ _ hf]

lemma commitStep_error_spec {pg : Bool} {ctx e : Ctx}
    (h : commitStep pg ctx = .error e) :
    e.st = ctx.st ∧ e.tr = ctx.tr ++ [(txnConn pg, .commitTx)] := by
  unfold commitStep at h
  cases hi : issueStmt ctx (txnConn pg) .commitTx with
  | error e2 =>
    rw [hi] at h
    injection h with h2
    exact h2 ▸ issueStmt_error_spec hi
  | ok c2 => rw [hi] at h; exact absurd h (by simp)

lemma commitStep_ok_spec {pg : Bool} {ctx c2 : Ctx}
    (h : commitStep pg ctx = .ok c2) :
    c2.st = ⟨curView ctx.st, none⟩ ∧
      c2.tr = ctx.tr ++ [(txnConn pg, .commitTx)] := by
  unfold commitStep at h
  cases hi : issueStmt ctx (txnConn pg) .commitTx with
  | error e2 => rw [hi] at h; exact absurd h (by simp)
  | ok c3 =>
    rw [hi] at h
    obtain ⟨hst, htr⟩ := issueStmt_ok_spec hi
    injection h with h2
    rw [← h2]
    exact ⟨by rw [hst], htr⟩

lemma commitStep_none {pg : Bool} {ctx : Ctx} (hf : ctx.fuel = none) :
    commitStep pg ctx = .ok ⟨⟨curView ctx.st, none⟩, none,
      ctx.tr ++ [(txnConn pg, .commitTx)]⟩ := by
  unfold commitStep
  rw [issueStmt_none _ _ hf]

/-! ## Preservation of committed state by the orchestrator steps -/

lemma cleanTable_error_pres {pg : Bool} {t : String} {ctx e : Ctx}
    (hts : ctx.st.txn.isSome = true)
    (h : cleanTable pg t ctx = .error e) :
    e.st.committed = ctx.st.committed ∧ e.st.txn.isSome = true := by
  unfold cleanTable at h
  split at h
  · rename_i e2 hte
    injection h with h2
    subst h2
    obtain ⟨hst, _⟩ := tableExists_error_spec hte
    rw [hst]
    exact ⟨rfl, hts⟩
  · exact absurd h (by simp)
  · rename_i c1 hte
    obtain ⟨hst1, _, _⟩ := tableExists_ok_spec hte
    split at h
    · split at h
      · rename_i e2 hcs
        injection h with h2
        subst h2
        obtain ⟨hst2, _⟩ := countStep_error_spec hcs
        rw [hst2, hst1]
        exact ⟨rfl, hts⟩
      · rename_i c2 hcs
        obtain ⟨hst2, _⟩ := countStep_ok_spec hcs
        split at h
        · rename_i e3 hda
          injection h with h2
          subst h2
          obtain ⟨hst3, _⟩ := deleteAllStep_error_spec hda
          rw [hst3, hst2, hst1]
          exact ⟨rfl, hts⟩
        · exact absurd h (by simp)
    · split at h
      · rename_i e2 hda
        injection h with h2
        subst h2
        obtain ⟨hst2, _⟩ := deleteAllStep_error_spec hda
        rw [hst2, hst1]
        exact ⟨rfl, hts⟩
      · exact absurd h (by simp)

lemma cleanTable_ok_pres {pg : Bool} {t : String} {ctx c2 : Ctx} {r : TCR}
    (hts : ctx.st.txn.isSome = true)
    (h : cleanTable pg t ctx = .ok (r, c2)) :
    c2.st.committed = ctx.st.committed ∧ c2.st.txn.isSome = true := by
  unfold cleanTable at h
  split at h
  · exact absurd h (by simp)
  · rename_i c1 hte
    obtain ⟨hst1, _, _⟩ := tableExists_ok_spec hte
    injection h with h2
    injection h2 with hr hc
    subst hc
    rw [hst1]
    exact ⟨rfl, hts⟩
  · rename_i c1 hte
    obtain ⟨hst1, _, _⟩ := tableExists_ok_spec hte
    split at h
    · split at h
      · exact absurd h (by simp)
      · rename_i c3 hcs
        obtain ⟨hst2, _⟩ := countStep_ok_spec hcs
        split at h
        · exact absurd h (by simp)
        · rename_i p hda
          obtain ⟨n, c4⟩ := p
          obtain ⟨hst3, _, _⟩ := deleteAllStep_ok_spec hda
          injection h with h2
          injection h2 with hr hc
          subst hc
          rw [hst3, hst2, hst1]
          exact mutTxn_pres ctx.st _ hts
    · split at h
      · exact absurd h (by simp)
      · rename_i p hda
        obtain ⟨n, c3⟩ := p
        obtain ⟨hst2, _, _⟩ := deleteAllStep_ok_spec hda
        injection h with h2
        injection h2 with hr hc
        subst hc
        rw [hst2, hst1]
        exact mutTxn_pres ctx.st _ hts

lemma cleanTables_error_pres {pg : Bool} {ts : List String} {ctx e : Ctx}
    (hts : ctx.st.txn.isSome = true)
    (h : cleanTables pg ts ctx = .error e) :
    e.st.committed = ctx.st.committed ∧ e.st.txn.isSome = true := by
  induction ts generalizing ctx with
  | nil => exact absurd h (by simp [cleanTables])
  | cons t ts ih =>
    unfold cleanTables at h
    split at h
    · rename_i e2 hct
      injection h with h2
      subst h2
      exact cleanTable_error_pres hts hct
    · rename_i p hct
      obtain ⟨r, c1⟩ := p
      obtain ⟨hcom1, hts1⟩ := cleanTable_ok_pres hts hct
      split at h
      · rename_i e2 hcts
        injection h with h2
        subst h2
        obtain ⟨hcom2, hts2⟩ := ih hts1 hcts
        exact ⟨by rw [hcom2, hcom1], hts2⟩
      · exact absurd h (by simp)

lemma cleanTables_ok_pres {pg : Bool} {ts : List String} {ctx c2 : Ctx}
    {rs : List TCR}
    (hts : ctx.st.txn.isSome = true)
    (h : cleanTables pg ts ctx = .ok (rs, c2)) :
    c2.st.committed = ctx.st.committed ∧ c2.st.txn.isSome = true := by
  induction ts generalizing ctx rs with
  | nil =>
    unfold cleanTables at h
    injection h with h2
    injection h2 with hr hc
    subst hc
    exact ⟨rfl, hts⟩
  | cons t ts ih =>
    unfold cleanTables at h
    split at h
    · exact absurd h (by simp)
    · rename_i p hct
      obtain ⟨r, c1⟩ := p
      obtain ⟨hcom1, hts1⟩ := cleanTable_ok_pres hts hct
      split at h
      · exact absurd h (by simp)
      · rename_i p2 hcts
        obtain ⟨rs2, c3⟩ := p2
        injection h with h2
        injection h2 with hr hc
        subst hc
        obtain ⟨hcom2, hts2⟩ := ih hts1 hcts
        exact ⟨by rw [hcom2, hcom1], hts2⟩

lemma cleanUsers_error_pres {pg : Bool} {ctx e : Ctx}
    (hts : ctx.st.txn.isSome = true)
    (h : cleanUsers pg ctx = .error e) :
    e.st.committed = ctx.st.committed ∧ e.st.txn.isSome = true := by
  unfold cleanUsers at h
  split at h
  · rename_i e2 hte
    injection h with h2
    subst h2
    obtain ⟨hst, _⟩ := tableExists_error_spec hte
    rw [hst]
    exact ⟨rfl, hts⟩
  · exact absurd h (by simp)
  · rename_i c1 hte
    obtain ⟨hst1, _, _⟩ := tableExists_ok_spec hte
    split at h
    · rename_i e2 hi
      injection h with h2
      subst h2
      obtain ⟨hst2, _⟩ := issueStmt_error_spec hi
      rw [hst2, hst1]
      exact ⟨rfl, hts⟩
    · exact absurd h (by simp)

lemma cleanUsers_ok_pres {pg : Bool} {ctx c2 : Ctx} {r : TCR}
    (hts : ctx.st.txn.isSome = true)
    (h : cleanUsers pg ctx = .ok (r, c2)) :
    c2.st.committed = ctx.st.committed ∧ c2.st.txn.isSome = true := by
  unfold cleanUsers at h
  split at h
  · exact absurd h (by simp)
  · rename_i c1 hte
    obtain ⟨hst1, _, _⟩ := tableExists_ok_spec hte
    injection h with h2
    injection h2 with hr hc
    subst hc
    rw [hst1]
    exact ⟨rfl, hts⟩
  · rename_i c1 hte
    obtain ⟨hst1, _, _⟩ := tableExists_ok_spec hte
    split at h
    · exact absurd h (by simp)
    · rename_i c3 hi
      obtain ⟨hst2, _⟩ := issueStmt_ok_spec hi
      injection h with h2
      injection h2 with hr hc
      subst hc
      rw [hst2, hst1]
      exact mutTxn_pres ctx.st _ hts

lemma getLast?_append_single {α : Type} (l : List α) (a : α) :
    (l ++ [a]).getLast? = some a := by
  induction l with
  | nil => rfl
  | cons x xs ih =>
    cases hx : xs ++ [a] with
    | nil => exact absurd hx (by simp)
    | cons y ys =>
      rw [List.cons_append, hx, List.getLast?_cons_cons, ← hx]
      exact ih

lemma usersStage_error_pres {pg ru : Bool} {rs : List TCR} {ctx e : Ctx}
    (hts : ctx.st.txn.isSome = true)
    (h : usersStage pg ru rs ctx = .error e) :
    e.st.committed = ctx.st.committed ∧ e.st.txn.isSome = true := by
  unfold usersStage at h
  cases ru with
  | false => simp at h
  | true =>
    rw [if_pos rfl] at h
    split at h
    · rename_i e2 hcu
      injection h with h2
      subst h2
      exact cleanUsers_error_pres hts hcu
    · exact absurd h (by simp)

lemma usersStage_ok_pres {pg ru : Bool} {rs all : List TCR} {ctx c3 : Ctx}
    (hts : ctx.st.txn.isSome = true)
    (h : usersStage pg ru rs ctx = .ok (all, c3)) :
    c3.st.committed = ctx.st.committed ∧ c3.st.txn.isSome = true := by
  unfold usersStage at h
  cases ru with
  | false =>
    rw [if_neg (by simp)] at h
    injection h with h2
    injection h2 with hall hc
    subst hc
    exact ⟨rfl, hts⟩
  | true =>
    rw [if_pos rfl] at h
    split at h
    · exact absurd h (by simp)
    · rename_i p hcu
      obtain ⟨r, c4⟩ := p
      injection h with h2
      injection h2 with hall hc
      subst hc
      exact cleanUsers_ok_pres hts hcu

lemma errResult_eq (pg : Bool) (e : Ctx) :
    errResult pg e =
      ⟨.err, ⟨e.st.committed, none⟩, e.tr ++ [(txnConn pg, .rollbackTx)]⟩ := rfl

lemma reset_err_spec {pg ru : Bool} {db : DB} {failAt : Option Nat}
    {stf : TxState} {trf : Trace}
    (h : resetOperationalData pg ru db failAt = ⟨.err, stf, trf⟩) :
    stf.committed = db ∧ stf.txn = none ∧
      trf.getLast? = some (txnConn pg, .rollbackTx) := by
  unfold resetOperationalData at h
  cases hbs : beginStep pg ⟨⟨db, none⟩, failAt, []⟩ with
  | error e =>
    rw [hbs] at h
    dsimp only at h
    rw [errResult_eq] at h
    obtain ⟨hst, _⟩ := beginStep_error_spec hbs
    injection h with h1 h2 h3
    rw [← h2, ← h3, hst]
    exact ⟨rfl, rfl, getLast?_append_single _ _⟩
  | ok c1 =>
    rw [hbs] at h
    dsimp only at h
    obtain ⟨hst1, _⟩ := beginStep_ok_spec hbs
    have hts1 : c1.st.txn.isSome = true := by rw [hst1]; rfl
    have hcom1 : c1.st.committed = db := by rw [hst1]

    cases hcts : cleanTables pg TABLES_TO_CLEAN c1 with
    | error e =>
      rw [hcts] at h
      dsimp only at h
      rw [errResult_eq] at h
      obtain ⟨hcom, _⟩ := cleanTables_error_pres hts1 hcts
      injection h with h1 h2 h3
      rw [← h2, ← h3]
      exact ⟨by rw [hcom, hcom1], rfl, getLast?_append_single _ _⟩
    | ok p =>
      obtain ⟨rs, c2⟩ := p
      rw [hcts] at h
      dsimp only at h
      obtain ⟨hcom2, hts2⟩ := cleanTables_ok_pres hts1 hcts
      cases hu : usersStage pg ru rs c2 with
      | error e =>
        rw [hu] at h
        dsimp only at h
        rw [errResult_eq] at h
        obtain ⟨hcom3, _⟩ := usersStage_error_pres hts2 hu
        injection h with h1 h2 h3
        rw [← h2, ← h3]
        exact ⟨by rw [hcom3, hcom2, hcom1], rfl, getLast?_append_single _ _⟩
      | ok p2 =>
        obtain ⟨all, c3⟩ := p2
        rw [hu] at h
        dsimp only at h
        obtain ⟨hcom3, hts3⟩ := usersStage_ok_pres hts2 hu
        cases hcm : commitStep pg c3 with
        | error e =>
          rw [hcm] at h
          dsimp only at h
          rw [errResult_eq] at h
          obtain ⟨hst4, _⟩ := commitStep_error_spec hcm
          injection h with h1 h2 h3
          rw [← h2, ← h3, hst4]
          exact ⟨by rw [hcom3, hcom2, hcom1], rfl, getLast?_append_single _ _⟩
        | ok c4 =>
          rw [hcm] at h
          dsimp only at h
          injection h with h1
          exact absurd h1 (by simp)

/-- Claim C1: if any statement issued during a reset invocation fails,
the orchestrator issues a rollback on the transaction it opened (the
last statement of the trace, on the transaction-bound connection), and
the committed database state observable after the failure equals the
state before the invocation, on either backend; no table is left
partially or fully deleted by the failed run. -/
theorem C1_failed_reset_restores_state (pg ru : Bool) (db : DB)
    (failAt : Option Nat)
    (h : (resetOperationalData pg ru db failAt).outcome = .err) :
    (resetOperationalData pg ru db failAt).state.committed = db ∧
    (resetOperationalData pg ru db failAt).state.txn = none ∧
    (resetOperationalData pg ru db failAt).trace.getLast? =
      some (txnConn pg, .rollbackTx) := by
  cases hR : resetOperationalData pg ru db failAt with
  | mk o stf trf =>
    rw [hR] at h
    dsimp only at h
    subst h
    exact reset_err_spec hR

/-- Witness for C1: on the NetworkedServer backend, with a failure
injected at the fourth statement (the delete of the first table), the
outcome is an error, the committed state equals the initial state, and
the trace ends with a rollback on the dedicated connection. -/
theorem C1_witness :
    (resetOperationalData true false dbEx (some 3)).state.committed = dbEx ∧
    (resetOperationalData true false dbEx (some 3)).state.txn = none ∧
    (resetOperationalData true false dbEx (some 3)).trace.getLast? =
      some (txnConn true, .rollbackTx) :=
  C1_failed_reset_restores_state true false dbEx (some 3) (by decide)

/-! ## Trace discipline of a NetworkedServer run -/

/-- Every statement of the trace sits on the connection the source
issues it on: existence checks on the pooled facade, everything else on
the dedicated client. -/
def GoodTr (tr : Trace) : Prop := ∀ x ∈ tr, x.1 = pgConnOf x.2

lemma goodTr_nil : GoodTr [] := by
  intro x hx
  simp at hx

lemma goodTr_snoc {tr : Trace} (hg : GoodTr tr) {c : Conn} {k : StKind}
    (h : c = pgConnOf k) : GoodTr (tr ++ [(c, k)]) := by
  intro x hx
  rcases List.mem_append.mp hx with h1 | h2
  · exact hg x h1
  · have hx2 : x = (c, k) := by simpa using h2
    rw [hx2]
    exact h

lemma cleanTable_error_good {t : String} {ctx e : Ctx} (hg : GoodTr ctx.tr)
    (h : cleanTable true t ctx = .error e) : GoodTr e.tr := by
  unfold cleanTable at h
  split at h
  · rename_i e2 hte
    injection h with h2
    subst h2
    obtain ⟨_, htr⟩ := tableExists_error_spec hte
    rw [htr]
    exact goodTr_snoc hg rfl
  · exact absurd h (by simp)
  · rename_i c1 hte
    obtain ⟨_, htr1, _⟩ := tableExists_ok_spec hte
    have hg1 : GoodTr c1.tr := by rw [htr1]; exact goodTr_snoc hg rfl
    rw [if_pos rfl] at h
    split at h
    · rename_i e2 hcs
      injection h with h2
      subst h2
      obtain ⟨_, htr2⟩ := countStep_error_spec hcs
      rw [htr2]
      exact goodTr_snoc hg1 rfl
    · rename_i c2 hcs
      obtain ⟨_, htr2⟩ := countStep_ok_spec hcs
      have hg2 : GoodTr c2.tr := by rw [htr2]; exact goodTr_snoc hg1 rfl
      split at h
      · rename_i e3 hda
        injection h with h2
        subst h2
        obtain ⟨_, htr3⟩ := deleteAllStep_error_spec hda
        rw [htr3]
        exact goodTr_snoc hg2 rfl
      · exact absurd h (by simp)

lemma cleanTable_ok_good {t : String} {ctx c2 : Ctx} {r : TCR}
    (hg : GoodTr ctx.tr)
    (h : cleanTable true t ctx = .ok (r, c2)) : GoodTr c2.tr := by
  unfold cleanTable at h
  split at h
  · exact absurd h (by simp)
  · rename_i c1 hte
    obtain ⟨_, htr1, _⟩ := tableExists_ok_spec hte
    injection h with h2
    injection h2 with hr hc
    subst hc
    rw [htr1]
    exact goodTr_snoc hg rfl
  · rename_i c1 hte
    obtain ⟨_, htr1, _⟩ := tableExists_ok_spec hte
    have hg1 : GoodTr c1.tr := by rw [htr1]; exact goodTr_snoc hg rfl
    rw [if_pos rfl] at h
    split at h
    · exact absurd h (by simp)
    · rename_i c3 hcs
      obtain ⟨_, htr2⟩ := countStep_ok_spec hcs
      have hg2 : GoodTr c3.tr := by rw [htr2]; exact goodTr_snoc hg1 rfl
      split at h
      · exact absurd h (by simp)
      · rename_i n c4 hda
        obtain ⟨_, htr3, _⟩ := deleteAllStep_ok_spec hda
        injection h with h2
        injection h2 with hr hc
        subst hc
        rw [htr3]
        exact goodTr_snoc hg2 rfl

lemma cleanTables_error_good {ts : List String} {ctx e : Ctx}
    (hg : GoodTr ctx.tr)
    (h : cleanTables true ts ctx = .error e) : GoodTr e.tr := by
  induction ts generalizing ctx with
  | nil => exact absurd h (by simp [cleanTables])
  | cons t ts ih =>
    unfold cleanTables at h
    split at h
    · rename_i e2 hct
      injection h with h2
      subst h2
      exact cleanTable_error_good hg hct
    · rename_i r c1 hct
      have hg1 : GoodTr c1.tr := cleanTable_ok_good hg hct
      split at h
      · rename_i e2 hcts
        injection h with h2
        subst h2
        exact ih hg1 hcts
      · exact absurd h (by simp)

lemma cleanTables_ok_good {ts : List String} {ctx c2 : Ctx} {rs : List TCR}
    (hg : GoodTr ctx.tr)
    (h : cleanTables true ts ctx = .ok (rs, c2)) : GoodTr c2.tr := by
  induction ts generalizing ctx rs with
  | nil =>
    unfold cleanTables at h
    injection h with h2
    injection h2 with hr hc
    subst hc
    exact hg
  | cons t ts ih =>
    unfold cleanTables at h
    split at h
    · exact absurd h (by simp)
    · rename_i r c1 hct
      have hg1 : GoodTr c1.tr := cleanTable_ok_good hg hct
      split at h
      · exact absurd h (by simp)
      · rename_i rs2 c3 hcts
        injection h with h2
        injection h2 with hr hc
        subst hc
        exact ih hg1 hcts

lemma cleanUsers_error_good {ctx e : Ctx} (hg : GoodTr ctx.tr)
    (h : cleanUsers true ctx = .error e) : GoodTr e.tr := by
  unfold cleanUsers at h
  split at h
  · rename_i e2 hte
    injection h with h2
    subst h2
    obtain ⟨_, htr⟩ := tableExists_error_spec hte
    rw [htr]
    exact goodTr_snoc hg rfl
  · exact absurd h (by simp)
  · rename_i c1 hte
    obtain ⟨_, htr1, _⟩ := tableExists_ok_spec hte
    have hg1 : GoodTr c1.tr := by rw [htr1]; exact goodTr_snoc hg rfl
    split at h
    · rename_i e2 hi
      injection h with h2
      subst h2
      obtain ⟨_, htr2⟩ := issueStmt_error_spec hi
      rw [htr2]
      exact goodTr_snoc hg1 rfl
    · exact absurd h (by simp)

lemma cleanUsers_ok_good {ctx c2 : Ctx} {r : TCR} (hg : GoodTr ctx.tr)
    (h : cleanUsers true ctx = .ok (r, c2)) : GoodTr c2.tr := by
  unfold cleanUsers at h
  split at h
  · exact absurd h (by simp)
  · rename_i c1 hte
    obtain ⟨_, htr1, _⟩ := tableExists_ok_spec hte
    injection h with h2
    injection h2 with hr hc
    subst hc
    rw [htr1]
    exact goodTr_snoc hg rfl
  · rename_i c1 hte
    obtain ⟨_, htr1, _⟩ := tableExists_ok_spec hte
    have hg1 : GoodTr c1.tr := by rw [htr1]; exact goodTr_snoc hg rfl
    split at h
    · exact absurd h (by simp)
    · rename_i c3 hi
      obtain ⟨_, htr2⟩ := issueStmt_ok_spec hi
      injection h with h2
      injection h2 with hr hc
      subst hc
      rw [htr2]
      exact goodTr_snoc hg1 rfl

lemma usersStage_error_good {ru : Bool} {rs : List TCR} {ctx e : Ctx}
    (hg : GoodTr ctx.tr)
    (h : usersStage true ru rs ctx = .error e) : GoodTr e.tr := by
  unfold usersStage at h
  cases ru with
  | false => simp at h
  | true =>
    rw [if_pos rfl] at h
    split at h
    · rename_i e2 hcu
      injection h with h2
      subst h2
      exact cleanUsers_error_good hg hcu
    · exact absurd h (by simp)

lemma usersStage_ok_good {ru : Bool} {rs all : List TCR} {ctx c3 : Ctx}
    (hg : GoodTr ctx.tr)
    (h : usersStage true ru rs ctx = .ok (all, c3)) : GoodTr c3.tr := by
  unfold usersStage at h
  cases ru with
  | false =>
    rw [if_neg (by simp)] at h
    injection h with h2
    injection h2 with hall hc
    subst hc
    exact hg
  | true =>
    rw [if_pos rfl] at h
    split at h
    · exact absurd h (by simp)
    · rename_i r c4 hcu
      injection h with h2
      injection h2 with hall hc
      subst hc
      exact cleanUsers_ok_good hg hcu

lemma reset_trace_good (ru : Bool) (db : DB) (failAt : Option Nat) :
    GoodTr (resetOperationalData true ru db failAt).trace := by
  unfold resetOperationalData
  cases hbs : beginStep true ⟨⟨db, none⟩, failAt, []⟩ with
  | error e =>
    dsimp only
    rw [errResult_eq]
    obtain ⟨_, htr⟩ := beginStep_error_spec hbs
    dsimp only
    refine goodTr_snoc ?_ rfl
    rw [htr]
    exact goodTr_snoc goodTr_nil rfl
  | ok c1 =>
    dsimp only
    obtain ⟨_, htr1⟩ := beginStep_ok_spec hbs
    have hg1 : GoodTr c1.tr := by rw [htr1]; exact goodTr_snoc goodTr_nil rfl
    cases hcts : cleanTables true TABLES_TO_CLEAN c1 with
    | error e =>
      dsimp only
      rw [errResult_eq]
      dsimp only
      exact goodTr_snoc (cleanTables_error_good hg1 hcts) rfl
    | ok p =>
      obtain ⟨rs, c2⟩ := p
      dsimp only
      have hg2 : GoodTr c2.tr := cleanTables_ok_good hg1 hcts
      cases hu : usersStage true ru rs c2 with
      | error e =>
        dsimp only
        rw [errResult_eq]
        dsimp only
        exact goodTr_snoc (usersStage_error_good hg2 hu) rfl
      | ok p2 =>
        obtain ⟨all, c3⟩ := p2
        dsimp only
        have hg3 : GoodTr c3.tr := usersStage_ok_good hg2 hu
        cases hcm : commitStep true c3 with
        | error e =>
          dsimp only
          rw [errResult_eq]
          dsimp only
          obtain ⟨_, htr4⟩ := commitStep_error_spec hcm
          refine goodTr_snoc ?_ rfl
          rw [htr4]
          exact goodTr_snoc hg3 rfl
        | ok c4 =>
          dsimp only
          obtain ⟨_, htr4⟩ := commitStep_ok_spec hcm
          rw [htr4]
          exact goodTr_snoc hg3 rfl

/-- Counterexample to C2 as stated: a concrete NetworkedServer run
whose trace contains a statement issued on a pool connection other than
the dedicated one (a table-existence check), refuting that every
statement of the operation runs on the single dedicated connection. -/
theorem C2_counterexample :
    ¬ (∀ x ∈ (resetOperationalData true false dbEx none).trace,
        x.1 = Conn.dedicated) := by
  decide

/-- Claim C2 (amended): during one reset invocation on the
NetworkedServer backend, the begin, the per-table count and delete-all
statements, the user purge, and the final commit or rollback are issued
on the dedicated connection checked out at transaction start; the
table-existence checks, however, are issued through the pooled facade
and so may run on a different pool connection. -/
theorem C2_statement_connections (ru : Bool) (db : DB) (failAt : Option Nat)
    (x : Conn × StKind)
    (hx : x ∈ (resetOperationalData true ru db failAt).trace) :
    x.1 = pgConnOf x.2 :=
  reset_trace_good ru db failAt x hx

/-- Witness for the amended C2: the first statement of a concrete run
is the begin on the dedicated connection. -/
theorem C2_witness :
    (Conn.dedicated, StKind.beginTx).1 = pgConnOf (Conn.dedicated, StKind.beginTx).2 :=
  C2_statement_connections false dbEx none (Conn.dedicated, StKind.beginTx)
    (by decide)

/-! ## The successful run, characterized -/

lemma cleanTable_none_absent {pg : Bool} {t : String} {ctx : Ctx}
    (hf : ctx.fuel = none)
    (hex : ((readView pg ctx.st).find t).isSome = false) :
    ∃ tr3, cleanTable pg t ctx = .ok (⟨t, 0, true⟩, ⟨ctx.st, none, tr3⟩) := by
  refine ⟨ctx.tr ++ [(checkConn pg, .existsCheck t)], ?_⟩
  unfold cleanTable
  rw [tableExists_none hf, hex]

lemma cleanTable_none_present {pg : Bool} {t : String} {ctx : Ctx} {d : DB}
    (hf : ctx.fuel = none) (htxn : ctx.st.txn = some d)
    (hex : ((readView pg ctx.st).find t).isSome = true) :
    ∃ tr3, cleanTable pg t ctx =
      .ok (⟨t, ((d.find t).getD []).length, false⟩,
        ⟨⟨ctx.st.committed, some (d.setTable t [])⟩, none, tr3⟩) := by
  unfold cleanTable
  rw [tableExists_none hf, hex]
  dsimp only
  cases pg with
  | true =>
    rw [if_pos rfl]
    rw [countStep_none rfl]
    dsimp only
    rw [deleteAllStep_none rfl]
    dsimp only
    rw [curView_some _ d htxn, mutTxn_some _ d _ htxn]
    exact ⟨_, rfl⟩
  | false =>
    rw [if_neg (by simp)]
    rw [deleteAllStep_none rfl]
    dsimp only
    rw [curView_some _ d htxn, mutTxn_some _ d _ htxn]
    exact ⟨_, rfl⟩

lemma cleanTables_none_spec (pg : Bool) (db0 : DB) :
    ∀ (ts : List String) (ctx : Ctx) (d : DB),
    ctx.fuel = none →
    ctx.st.txn = some d →
    (∀ u, (ctx.st.committed.find u).isSome = (db0.find u).isSome) →
    (∀ u, (d.find u).isSome = (db0.find u).isSome) →
    (∀ u, u ∈ ts → d.find u = db0.find u) →
    ts.Nodup →
    ∃ d2 tr2,
      cleanTables pg ts ctx = .ok (ts.map (expectedTCR db0),
        ⟨⟨ctx.st.committed, some d2⟩, none, tr2⟩) ∧
      (∀ u, (d2.find u).isSome = (db0.find u).isSome) ∧
      (∀ u, u ∉ ts → d2.find u = d.find u)
  | [], ctx, d, hf, htxn, hP, hPd, hV, hnd => by
    refine ⟨d, ctx.tr, ?_, hPd, fun u _ => rfl⟩
    unfold cleanTables
    have hctx : ctx = ⟨⟨ctx.st.committed, some d⟩, none, ctx.tr⟩ := by
      obtain ⟨⟨com, txn⟩, fuel, tr⟩ := ctx
      dsimp only at hf htxn ⊢
      rw [hf, htxn]
    rw [← hctx]
    rfl
  | t :: ts, ctx, d, hf, htxn, hP, hPd, hV, hnd => by
    obtain ⟨hnt, hnd2⟩ := List.nodup_cons.mp hnd
    have hb : ((readView pg ctx.st).find t).isSome = (db0.find t).isSome :=
      readView_isSome pg ctx.st d t _ htxn (hP t) (hPd t)
    cases hfind : db0.find t with
    | none =>
      have hex : ((readView pg ctx.st).find t).isSome = false := by
        rw [hb, hfind]
        rfl
      obtain ⟨tr3, hct⟩ := cleanTable_none_absent hf hex
      obtain ⟨d2, tr2, hcts, h1, h2⟩ :=
        cleanTables_none_spec pg db0 ts ⟨ctx.st, none, tr3⟩ d rfl htxn hP hPd
          (fun u hu => hV u (List.mem_cons_of_mem t hu)) hnd2
      refine ⟨d2, tr2, ?_, h1, fun u hu => h2 u (fun hh => hu (List.mem_cons_of_mem t hh))⟩
      unfold cleanTables
      rw [hct]
      dsimp only
      dsimp only at hcts
      rw [hcts]
      dsimp only
      have hexp : expectedTCR db0 t = ⟨t, 0, true⟩ := by
        unfold expectedTCR
        rw [hfind]
      rw [List.map_cons, hexp]
    | some rows =>
      have hex : ((readView pg ctx.st).find t).isSome = true := by
        rw [hb, hfind]
        rfl
      obtain ⟨tr3, hct⟩ := cleanTable_none_present hf htxn hex
      have hdt : d.find t = some rows := by
        rw [hV t (List.mem_cons_self t ts), hfind]
      have hPd2 : ∀ u, ((d.setTable t []).find u).isSome = (db0.find u).isSome := by
        intro u
        rw [find_setTable_isSome]
        exact hPd u
      have hV2 : ∀ u, u ∈ ts → (d.setTable t []).find u = db0.find u := by
        intro u hu
        rw [find_setTable_ne d t u [] (fun hh => hnt (hh ▸ hu))]
        exact hV u (List.mem_cons_of_mem t hu)
      obtain ⟨d2, tr2, hcts, h1, h2⟩ :=
        cleanTables_none_spec pg db0 ts
          ⟨⟨ctx.st.committed, some (d.setTable t [])⟩, none, tr3⟩
          (d.setTable t []) rfl rfl hP hPd2 hV2 hnd2
      refine ⟨d2, tr2, ?_, h1, ?_⟩
      · unfold cleanTables
        rw [hct]
        dsimp only
        dsimp only at hcts
        rw [hcts]
        dsimp only
        have hexp : expectedTCR db0 t = ⟨t, rows.length, false⟩ := by
          unfold expectedTCR
          rw [hfind]
        rw [List.map_cons, hexp, hdt]
        rfl
      · intro u hu
        have hut : u ≠ t := fun hh => hu (hh ▸ List.mem_cons_self t ts)
        rw [h2 u (fun hh => hu (List.mem_cons_of_mem t hh)),
          find_setTable_ne d t u [] hut]

lemma usersStage_none_spec (pg ru : Bool) (rs : List TCR) (ctx : Ctx)
    (d2 db0 : DB)
    (hf : ctx.fuel = none) (htxn : ctx.st.txn = some d2)
    (hP : ∀ u, (ctx.st.committed.find u).isSome = (db0.find u).isSome)
    (hPd : ∀ u, (d2.find u).isSome = (db0.find u).isSome)
    (husr : d2.find "usuarios" = db0.find "usuarios") :
    ∃ d3 tr3,
      usersStage pg ru rs ctx = .ok (rs ++ (if ru then [usersTCR db0] else []),
        ⟨⟨ctx.st.committed, some d3⟩, none, tr3⟩) ∧
      d3.find "usuarios" = (if ru then usersAfter db0 else d2.find "usuarios") ∧
      (∀ u, u ≠ "usuarios" → d3.find u = d2.find u) := by
  have hctx : ctx = ⟨⟨ctx.st.committed, some d2⟩, none, ctx.tr⟩ := by
    obtain ⟨⟨com, txn⟩, fuel, tr⟩ := ctx
    dsimp only at hf htxn ⊢
    rw [hf, htxn]
  cases ru with
  | false =>
    refine ⟨d2, ctx.tr, ?_, by rw [if_neg (by simp)], fun u _ => rfl⟩
    unfold usersStage
    rw [if_neg (by simp), if_neg (by simp), List.append_nil, ← hctx]
  | true =>
    unfold usersStage
    rw [if_pos rfl, if_pos rfl]
    unfold cleanUsers
    have hb : ((readView pg ctx.st).find "usuarios").isSome =
        (db0.find "usuarios").isSome :=
      readView_isSome pg ctx.st d2 "usuarios" _ htxn (hP "usuarios")
        (hPd "usuarios")
    cases hu : db0.find "usuarios" with
    | none =>
      have hex : ((readView pg ctx.st).find "usuarios").isSome = false := by
        rw [hb, hu]
        rfl
      rw [tableExists_none hf, hex]
      dsimp only
      refine ⟨d2, ctx.tr ++ [(checkConn pg, .existsCheck "usuarios")], ?_, ?_, fun u _ => rfl⟩
      · have hexp : usersTCR db0 = ⟨"usuarios", 0, true⟩ := by
          unfold usersTCR
          rw [hu]
        rw [hexp]
        have hst : (⟨ctx.st, none, ctx.tr ++ [(checkConn pg, .existsCheck "usuarios")]⟩ : Ctx) =
            ⟨⟨ctx.st.committed, some d2⟩, none,
              ctx.tr ++ [(checkConn pg, .existsCheck "usuarios")]⟩ := by
          rw [← htxn]
        rw [hst]
      · rw [if_pos rfl]
        unfold usersAfter
        rw [husr, hu]
    | some rows =>
      have hex : ((readView pg ctx.st).find "usuarios").isSome = true := by
        rw [hb, hu]
        rfl
      have hd2u : d2.find "usuarios" = some rows := by rw [husr, hu]
      rw [tableExists_none hf, hex]
      dsimp only
      rw [issueStmt_none _ _ rfl]
      dsimp only
      rw [curView_some _ d2 htxn, mutTxn_some _ d2 _ htxn, hd2u]
      have hexp : usersTCR db0 =
          ⟨"usuarios", (rows.filter delPred).length, false⟩ := by
        unfold usersTCR
        rw [hu]
      refine ⟨d2.setTable "usuarios" (rows.filter (fun r => !(delPred r))),
        ctx.tr ++ [(checkConn pg, .existsCheck "usuarios")] ++
          [(txnConn pg, .deleteNonAdmin)], ?_, ?_, ?_⟩
      · rw [hexp]
        rfl
      · rw [find_setTable_self d2 "usuarios" _ (by rw [hd2u]; rfl)]
        rw [if_pos rfl]
        unfold usersAfter
        rw [hu]
      · intro u hune
        rw [find_setTable_ne d2 "usuarios" u _ hune]

lemma reset_none_spec (pg ru : Bool) (db : DB) :
    ∃ d3 tr,
      resetOperationalData pg ru db none =
        ⟨.ok (fullReport ru db) (sumDeleted (fullReport ru db)), ⟨d3, none⟩, tr⟩ ∧
      (∀ u, u ∉ TABLES_TO_CLEAN → u ≠ "usuarios" → d3.find u = db.find u) ∧
      d3.find "usuarios" = (if ru then usersAfter db else db.find "usuarios") := by
  unfold resetOperationalData
  rw [beginStep_none rfl]
  dsimp only
  rw [List.nil_append]
  obtain ⟨d2, tr2, hcts, h1, h2⟩ :=
    cleanTables_none_spec pg db TABLES_TO_CLEAN
      ⟨⟨db, some db⟩, none, [(txnConn pg, .beginTx)]⟩ db rfl rfl
      (fun u => rfl) (fun u => rfl) (fun u _ => rfl) (by decide)
  dsimp only at hcts
  rw [hcts]
  dsimp only
  have husr : d2.find "usuarios" = db.find "usuarios" :=
    h2 "usuarios" (by decide)
  obtain ⟨d3, tr3, hus, hu3, hother⟩ :=
    usersStage_none_spec pg ru (TABLES_TO_CLEAN.map (expectedTCR db))
      ⟨⟨db, some d2⟩, none, tr2⟩ d2 db rfl rfl (fun u => h1 u ▸ rfl)
      h1 husr
  dsimp only at hus
  rw [hus]
  dsimp only
  rw [commitStep_none rfl]
  dsimp only
  rw [curView_some _ d3 rfl]
  refine ⟨d3, _, rfl, ?_, ?_⟩
  · intro u hu1 hu2
    rw [hother u hu2, h2 u hu1]
  · cases ru with
    | false =>
      rw [if_neg (by simp)] at hu3 ⊢
      rw [hu3, husr]
    | true =>
      rw [if_pos rfl] at hu3 ⊢
      exact hu3

lemma expectedTCR_table (db0 : DB) (t : String) :
    (expectedTCR db0 t).table = t := by
  unfold expectedTCR
  cases db0.find t <;> rfl

lemma usersTCR_table (db0 : DB) : (usersTCR db0).table = "usuarios" := by
  unfold usersTCR
  cases db0.find "usuarios" <;> rfl

lemma fullReport_tables (ru : Bool) (db0 : DB) :
    (fullReport ru db0).map TCR.table =
      TABLES_TO_CLEAN ++ (if ru then ["usuarios"] else []) := by
  unfold fullReport
  rw [List.map_append]
  congr 1
  · rw [List.map_map]
    have hc : ∀ t ∈ TABLES_TO_CLEAN, (TCR.table ∘ expectedTCR db0) t = id t :=
      fun t _ => expectedTCR_table db0 t
    rw [List.map_congr_left hc, List.map_id]
  · cases ru with
    | false => rfl
    | true => simp [usersTCR_table]

/-! ## Claims about the orchestrator report and frame -/

/-- Claim C3: for every table of the reset list whose existence check
reports it absent, the run records exactly a skipped zero-deletion
entry for it, raises no error for it, and keeps processing the other
tables in order; the present tables are still deleted and reported
non-skipped with their row counts. -/
theorem C3_absent_table_skipped (pg : Bool) (db : DB) (t : String)
    (ht : t ∈ TABLES_TO_CLEAN) (habs : db.find t = none) :
    isOk (resetOperationalData pg false db none).outcome = true ∧
    (reportOf (resetOperationalData pg false db none)).map TCR.table =
      TABLES_TO_CLEAN ∧
    TCR.mk t 0 true ∈ reportOf (resetOperationalData pg false db none) ∧
    (∀ u rows, u ∈ TABLES_TO_CLEAN → db.find u = some rows →
      TCR.mk u rows.length false ∈
        reportOf (resetOperationalData pg false db none)) := by
  obtain ⟨d3, tr, heq, _, _⟩ := reset_none_spec pg false db
  rw [heq]
  unfold reportOf isOk
  dsimp only
  have hfr : fullReport false db = TABLES_TO_CLEAN.map (expectedTCR db) := by
    unfold fullReport
    rw [if_neg (by simp), List.append_nil]
  rw [hfr]
  refine ⟨rfl, ?_, ?_, ?_⟩
  · rw [List.map_map]
    have hc : ∀ u ∈ TABLES_TO_CLEAN, (TCR.table ∘ expectedTCR db) u = id u :=
      fun u _ => expectedTCR_table db u
    rw [List.map_congr_left hc, List.map_id]
  · have hx : expectedTCR db t = ⟨t, 0, true⟩ := by
      unfold expectedTCR
      rw [habs]
    rw [← hx]
    exact List.mem_map_of_mem _ ht
  · intro u rows hmem hrows
    have hx : expectedTCR db u = ⟨u, rows.length, false⟩ := by
      unfold expectedTCR
      rw [hrows]
    rw [← hx]
    exact List.mem_map_of_mem _ hmem

/-- Witness for C3 on a concrete database missing one table. -/
theorem C3_witness :
    isOk (resetOperationalData false false dbEx3 none).outcome = true ∧
    TCR.mk "ocr_usage" 0 true ∈
      reportOf (resetOperationalData false false dbEx3 none) ∧
    TCR.mk "manutencoes" 3 false ∈
      reportOf (resetOperationalData false false dbEx3 none) := by
  have h := C3_absent_table_skipped false dbEx3 "ocr_usage" (by decide) (by decide)
  exact ⟨h.1, h.2.2.1,
    h.2.2.2 "manutencoes" [rowU "" "", rowU "" "", rowU "" ""]
      (by decide) (by decide)⟩

/-- Claim C4: on success the reset service returns a ResetReport to its
caller: one TableCleanupResult per processed table in processing order,
and totalDeleted equal to the sum of the deleted fields over the
non-skipped entries.  The service definition is modelled from the spec
because src/services/resetDataService.js is not under src/. -/
theorem C4_service_returns_report (pg ru : Bool) (db : DB) :
    ∃ rpt, resetOperationalDataService pg ru db = some rpt ∧
      rpt.results.map TCR.table =
        TABLES_TO_CLEAN ++ (if ru then ["usuarios"] else []) ∧
      rpt.totalDeleted =
        ((rpt.results.filter (fun r => !r.skipped)).map TCR.deleted).sum := by
  obtain ⟨d3, tr, heq, _, _⟩ := reset_none_spec pg ru db
  refine ⟨⟨fullReport ru db, sumDeleted (fullReport ru db)⟩, ?_,
    fullReport_tables ru db, rfl⟩
  unfold resetOperationalDataService
  rw [heq]

/-- Claim C9: a reset without the resetUsers option leaves the rows of
the user-account table unchanged; with the option it deletes exactly
the rows whose role is not the administrator role and whose email is
not the reserved administrator address, so every row matching the
administrator predicate remains, and the report records the deleted
count under the fixed table key. -/
theorem C9_users_frame (pg : Bool) (db : DB) (rows : List URow)
    (hu : db.find "usuarios" = some rows) :
    (resetOperationalData pg false db none).state.committed.find "usuarios" =
      some rows ∧
    (resetOperationalData pg true db none).state.committed.find "usuarios" =
      some (rows.filter (fun r => !(delPred r))) ∧
    TCR.mk "usuarios" (rows.filter delPred).length false ∈
      reportOf (resetOperationalData pg true db none) ∧
    (∀ r, r ∈ rows → delPred r = false →
      r ∈ rows.filter (fun r2 => !(delPred r2))) := by
  obtain ⟨d3f, trf, heqf, _, hcuf⟩ := reset_none_spec pg false db
  obtain ⟨d3t, trt, heqt, _, hcut⟩ := reset_none_spec pg true db
  rw [if_neg (by simp)] at hcuf
  rw [if_pos rfl] at hcut
  refine ⟨?_, ?_, ?_, ?_⟩
  · rw [heqf]
    dsimp only
    rw [hcuf, hu]
  · rw [heqt]
    dsimp only
    rw [hcut]
    unfold usersAfter
    rw [hu]
  · rw [heqt]
    unfold reportOf
    dsimp only
    unfold fullReport
    rw [if_pos rfl]
    have hx : usersTCR db = ⟨"usuarios", (rows.filter delPred).length, false⟩ := by
      unfold usersTCR
      rw [hu]
    rw [← hx]
    exact List.mem_append_right _ (List.mem_singleton.mpr rfl)
  · intro r hr hdel
    rw [List.mem_filter]
    exact ⟨hr, by rw [hdel]; rfl⟩

/-- Witness for C9 on a concrete database: the administrator row and
the row carrying the reserved address survive, the other is deleted. -/
theorem C9_witness :
    (resetOperationalData true false dbEx none).state.committed.find "usuarios" =
      some [rowU "admin" "admin@troia.com", rowU "user" "u1@x.com",
            rowU "user" "admin@troia.com"] ∧
    (resetOperationalData true true dbEx none).state.committed.find "usuarios" =
      some [rowU "admin" "admin@troia.com", rowU "user" "admin@troia.com"] ∧
    TCR.mk "usuarios" 1 false ∈
      reportOf (resetOperationalData true true dbEx none) := by
  have h := C9_users_frame true dbEx
    [rowU "admin" "admin@troia.com", rowU "user" "u1@x.com",
     rowU "user" "admin@troia.com"] (by decide)
  refine ⟨h.1, ?_, ?_⟩
  · have h2 := h.2.1
    simpa using h2
  · have h3 := h.2.2.1
    simpa using h3

end Troia
